import Mathlib

/-!
# Verification of the Distributed-Image-Sharing-Cloud cluster runtime

Shallow embedding of the Rust sources (`src/chunking.rs`, `src/messages.rs`,
`src/election.rs`, `src/node.rs`) and proofs of the frozen claims about the
natural-language specification.

Modelling conventions:
* Bytes are `Nat` with an explicit `< 256` bound where it matters.
* `f64` load values are embedded as `ℚ` (loads are exact small integers in the
  program: `load = active_requests as f64`).
* Rust `HashMap`s are association lists with insert-or-replace semantics
  (`alUpdate`); iteration order of a `HashMap`, which Rust leaves unspecified,
  is an explicit list parameter where the result depends on it.
* Base64 strings are embedded as their sextet streams (`List Nat` of 6-bit
  values); the `=` padding characters of `base64::STANDARD` carry no data and
  are determined by the stream length, so the sextet stream is exactly the
  information content of the encoded string.
* `Instant` timestamps are dropped where the code's result does not depend on
  them (the reassembly-timeout GC and the load-cache freshness logging are the
  only users, and neither affects any value computed here).
-/

namespace DistCloud

/-! ## Association-list primitives standing in for Rust `HashMap` -/

/-- `HashMap::get`: first value stored under `k`. -/
def alGet {α : Type} [DecidableEq α] {β : Type} (k : α) : List (α × β) → Option β
  | [] => none
  | (k', v) :: rest => if k' = k then some v else alGet k rest

/-- `HashMap::insert`: replace the value under `k`, or add the pair if absent. -/
def alUpdate {α : Type} [DecidableEq α] {β : Type} (k : α) (v : β) :
    List (α × β) → List (α × β)
  | [] => [(k, v)]
  | (k', v') :: rest => if k' = k then (k, v) :: rest else (k', v') :: alUpdate k v rest

/-- `HashMap::remove`: drop the first pair stored under `k`. -/
def alErase {α : Type} [DecidableEq α] {β : Type} (k : α) :
    List (α × β) → List (α × β)
  | [] => []
  | (k', v') :: rest => if k' = k then rest else (k', v') :: alErase k rest

theorem alGet_alUpdate_self {α : Type} [DecidableEq α] {β : Type}
    (k : α) (v : β) (l : List (α × β)) : alGet k (alUpdate k v l) = some v := by
  induction l with
  | nil => simp [alGet, alUpdate]
  | cons p rest ih =>
    obtain ⟨k', v'⟩ := p
    by_cases h : k' = k <;> simp [alGet, alUpdate, h, ih]

theorem alGet_alUpdate_ne {α : Type} [DecidableEq α] {β : Type}
    (k k' : α) (v : β) (l : List (α × β)) (h : k' ≠ k) :
    alGet k' (alUpdate k v l) = alGet k' l := by
  have hks : ¬ k = k' := fun hk => h hk.symm
  induction l with
  | nil => simp [alGet, alUpdate, hks]
  | cons p rest ih =>
    obtain ⟨k₀, v₀⟩ := p
    by_cases h0 : k₀ = k
    · subst h0
      simp [alGet, alUpdate, hks]
    · simp [alGet, alUpdate, h0, ih]

theorem alGet_append {α : Type} [DecidableEq α] {β : Type}
    (k : α) (l₁ l₂ : List (α × β)) :
    alGet k (l₁ ++ l₂) =
      match alGet k l₁ with
      | some v => some v
      | none => alGet k l₂ := by
  induction l₁ with
  | nil => simp [alGet]
  | cons p rest ih =>
    obtain ⟨k', v⟩ := p
    by_cases h : k' = k <;> simp [alGet, h, ih]

theorem alUpdate_of_alGet_none {α : Type} [DecidableEq α] {β : Type}
    (k : α) (v : β) (l : List (α × β)) (h : alGet k l = none) :
    alUpdate k v l = l ++ [(k, v)] := by
  induction l with
  | nil => simp [alUpdate]
  | cons p rest ih =>
    obtain ⟨k', v'⟩ := p
    by_cases h0 : k' = k
    · simp [alGet, h0] at h
    · simp [alGet, h0] at h
      simp [alUpdate, h0, ih h]

/-! ## Base64 (`base64::engine::general_purpose::STANDARD` in chunking.rs)

A byte list is encoded as its 6-bit sextet stream: groups of three bytes
become four sextets, a trailing single byte two sextets, a trailing pair three
sextets.  Decoding is the inverse; a stream length that no padding-correct
base64 string can produce (length `≡ 1 [MOD 4]`) is rejected with `none`,
mirroring `decode` returning `Err`. -/

def encodeB64 : List Nat → List Nat
  | [] => []
  | [a] => [a / 4, a % 4 * 16]
  | [a, b] => [a / 4, a % 4 * 16 + b / 16, b % 16 * 4]
  | a :: b :: c :: rest =>
      a / 4 :: (a % 4 * 16 + b / 16) :: (b % 16 * 4 + c / 64) :: c % 64 :: encodeB64 rest

def decodeB64 : List Nat → Option (List Nat)
  | [] => some []
  | [_] => none
  | [w, x] => some [w * 4 + x / 16]
  | [w, x, y] => some [w * 4 + x / 16, x % 16 * 16 + y / 4]
  | w :: x :: y :: z :: rest =>
      (decodeB64 rest).map fun tail =>
        (w * 4 + x / 16) :: (x % 16 * 16 + y / 4) :: (y % 4 * 64 + z) :: tail

theorem decodeB64_encodeB64 (l : List Nat) (h : ∀ b ∈ l, b < 256) :
    decodeB64 (encodeB64 l) = some l := by
  induction l using encodeB64.induct with
  | case1 => simp [encodeB64, decodeB64]
  | case2 a =>
    have ha : a < 256 := h a (by simp)
    simp only [encodeB64, decodeB64]
    have e1 : a / 4 * 4 + a % 4 * 16 / 16 = a := by omega
    rw [e1]
  | case3 a b =>
    have ha : a < 256 := h a (by simp)
    have hb : b < 256 := h b (by simp)
    simp only [encodeB64, decodeB64]
    have e1 : a / 4 * 4 + (a % 4 * 16 + b / 16) / 16 = a := by omega
    have e2 : (a % 4 * 16 + b / 16) % 16 * 16 + b % 16 * 4 / 4 = b := by omega
    rw [e1, e2]
  | case4 a b c rest ih =>
    have ha : a < 256 := h a (by simp)
    have hb : b < 256 := h b (by simp)
    have hc : c < 256 := h c (by simp)
    have hrest : ∀ b' ∈ rest, b' < 256 := fun b' hb' => h b' (by simp [hb'])
    simp only [encodeB64, decodeB64, ih hrest, Option.map_some]
    have e1 : a / 4 * 4 + (a % 4 * 16 + b / 16) / 16 = a := by omega
    have e2 : (a % 4 * 16 + b / 16) % 16 * 16 + (b % 16 * 4 + c / 64) / 4 = b := by
      omega
    have e3 : (b % 16 * 4 + c / 64) % 4 * 64 + c % 64 = c := by omega
    rw [e1, e2, e3]
    rfl

/-! ## Chunked messages (chunking.rs, plus the `RetransmitRequest` variant that
node.rs pattern-matches on) -/

/-- `ChunkedMessage` from chunking.rs.  `data` fields hold the sextet stream of
the base64 string the program stores.  node.rs additionally matches a
`RetransmitRequest` variant (node.rs:171), included here. -/
inductive ChunkedMessage where
  | singlePacket (data : List Nat)
  | multiPacket (chunkId : String) (chunkIndex : Nat) (totalChunks : Nat) (data : List Nat)
  | retransmitRequest (chunkId : String) (missingIndices : List Nat)
deriving DecidableEq, Repr

/-- `CHUNK_SIZE` in chunking.rs: 45,000 bytes of raw data per chunk. -/
def CHUNK_SIZE : Nat := 45000

/-- The slice `data[start..end]` with `start = i * CHUNK_SIZE` and
`end = min(start + CHUNK_SIZE, len)` cut by `fragment` (chunking.rs:52-54). -/
def sliceCS (P : List Nat) (i : Nat) : List Nat :=
  (P.drop (i * CHUNK_SIZE)).take CHUNK_SIZE

/-- `ChunkedMessage::fragment` (chunking.rs:32-68).  The freshly minted UUID
`chunk_id` is passed as a parameter; `total_chunks = ⌈len / CHUNK_SIZE⌉` is
written out at each use site. -/
def fragment (chunkId : String) (data : List Nat) : List ChunkedMessage :=
  if data.length ≤ CHUNK_SIZE then
    [ChunkedMessage.singlePacket (encodeB64 data)]
  else
    (List.range ((data.length + CHUNK_SIZE - 1) / CHUNK_SIZE)).map fun chunkIndex =>
      ChunkedMessage.multiPacket chunkId chunkIndex
        ((data.length + CHUNK_SIZE - 1) / CHUNK_SIZE)
        (encodeB64 (sliceCS data chunkIndex))

/-- One entry of `ChunkReassembler::incomplete`: the received chunks keyed by
index, and the expected total.  The `Instant` timestamp only feeds the 30 s GC
(`cleanup_expired`), which never runs inside `process_chunk`, so it is
omitted. -/
structure ReassemblyEntry where
  chunks : List (Nat × List Nat)
  expectedTotal : Nat
deriving DecidableEq, Repr

/-- `ChunkReassembler` (chunking.rs:72-75). -/
structure ChunkReassembler where
  incomplete : List (String × ReassemblyEntry)
deriving DecidableEq, Repr

/-- The reassembly loop of `process_chunk` (chunking.rs:154-163): concatenate
the stored chunks in index order, failing if any index is absent. -/
def reassembleLoop (chunks : List (Nat × List Nat)) (total : Nat) : Option (List Nat) :=
  (List.range total).foldl
    (fun acc i =>
      match acc, alGet i chunks with
      | some l, some d => some (l ++ d)
      | _, _ => none)
    (some [])

/-- `ChunkReassembler::process_chunk` (chunking.rs:85-175).  Returns the
delivered payload (if complete) and the updated reassembler.  A
`RetransmitRequest` never reaches `process_chunk`: node.rs intercepts it
beforehand (node.rs:171); it is mapped to a no-op here. -/
def processChunk (r : ChunkReassembler) (msg : ChunkedMessage) :
    Option (List Nat) × ChunkReassembler :=
  match msg with
  | .singlePacket enc =>
      match decodeB64 enc with
      | some data => (some data, r)
      | none => (none, r)
  | .retransmitRequest _ _ => (none, r)
  | .multiPacket chunkId chunkIndex totalChunks enc =>
      match decodeB64 enc with
      | none => (none, r)
      | some data =>
          -- `entry(chunk_id).or_insert_with(...)`
          let incomplete1 :=
            match alGet chunkId r.incomplete with
            | some _ => r.incomplete
            | none => alUpdate chunkId ⟨[], totalChunks⟩ r.incomplete
          let entry := (alGet chunkId incomplete1).getD ⟨[], totalChunks⟩
          if entry.expectedTotal = totalChunks then
            -- `chunks.insert(chunk_index, data)`
            let chunks1 := alUpdate chunkIndex data entry.chunks
            let incomplete2 := alUpdate chunkId ⟨chunks1, entry.expectedTotal⟩ incomplete1
            if chunks1.length = totalChunks then
              if (List.range totalChunks).all (fun i => (alGet i chunks1).isSome) then
                match reassembleLoop chunks1 totalChunks with
                | some completeData => (some completeData, ⟨alErase chunkId incomplete2⟩)
                | none => (none, ⟨incomplete2⟩)
              else (none, ⟨incomplete2⟩)
            else (none, ⟨incomplete2⟩)
          else (none, ⟨incomplete1⟩)

/-- Feed a list of chunks through the reassembler in order, collecting each
call's return value. -/
def processAll (r : ChunkReassembler) :
    List ChunkedMessage → List (Option (List Nat)) × ChunkReassembler
  | [] => ([], r)
  | m :: ms =>
      let step := processChunk r m
      let rest := processAll step.2 ms
      (step.1 :: rest.1, rest.2)

/-! ### Round-trip proof for fragment / process_chunk -/

theorem processAll_cons (r : ChunkReassembler) (m : ChunkedMessage)
    (ms : List ChunkedMessage) :
    processAll r (m :: ms)
      = ((processChunk r m).1 :: (processAll (processChunk r m).2 ms).1,
         (processAll (processChunk r m).2 ms).2) := rfl

/-- The chunk map a fresh reassembler holds after receiving slices `0..t-1`. -/
def receivedUpTo (P : List Nat) (t : Nat) : List (Nat × List Nat) :=
  (List.range t).map fun i => (i, sliceCS P i)

theorem sliceCS_bytes (P : List Nat) (h : ∀ b ∈ P, b < 256) (i : Nat) :
    ∀ b ∈ sliceCS P i, b < 256 := by
  intro b hb
  exact h b ((List.drop_sublist _ _).subset ((List.take_sublist _ _).subset hb))

theorem alGet_receivedUpTo (P : List Nat) (t i : Nat) :
    alGet i (receivedUpTo P t) = if i < t then some (sliceCS P i) else none := by
  induction t with
  | zero => simp [receivedUpTo, alGet]
  | succ t ih =>
    unfold receivedUpTo
    rw [List.range_succ, List.map_append, alGet_append]
    unfold receivedUpTo at ih
    rw [ih]
    by_cases h1 : i < t
    · simp [h1, Nat.lt_succ_of_lt h1]
    · by_cases h2 : i = t
      · subst h2
        simp [alGet]
      · have : ¬ i < t + 1 := by omega
        have ht : ¬ t = i := fun h' => h2 h'.symm
        simp [h1, this, alGet, ht]

theorem length_receivedUpTo (P : List Nat) (t : Nat) :
    (receivedUpTo P t).length = t := by
  simp [receivedUpTo]

theorem alUpdate_receivedUpTo (P : List Nat) (t : Nat) :
    alUpdate t (sliceCS P t) (receivedUpTo P t) = receivedUpTo P (t + 1) := by
  have hnone : alGet t (receivedUpTo P t) = none := by
    rw [alGet_receivedUpTo]
    simp
  rw [alUpdate_of_alGet_none _ _ _ hnone]
  unfold receivedUpTo
  rw [List.range_succ, List.map_append]
  rfl

theorem foldl_sliceCS (P : List Nat) (t : Nat) :
    (List.range t).foldl (fun acc i => acc ++ sliceCS P i) []
      = P.take (t * CHUNK_SIZE) := by
  induction t with
  | zero => simp
  | succ t ih =>
    rw [List.range_succ, List.foldl_append, ih]
    show P.take (t * CHUNK_SIZE) ++ sliceCS P t = P.take ((t + 1) * CHUNK_SIZE)
    rw [sliceCS, ← List.take_add, Nat.succ_mul]

theorem reassembleLoop_eq_foldl (chunks : List (Nat × List Nat)) (total : Nat)
    (f : Nat → List Nat) (h : ∀ i < total, alGet i chunks = some (f i)) :
    reassembleLoop chunks total
      = some ((List.range total).foldl (fun acc i => acc ++ f i) []) := by
  unfold reassembleLoop
  induction total with
  | zero => simp
  | succ t ih =>
    rw [List.range_succ, List.foldl_append, List.foldl_append,
        ih (fun i hi => h i (Nat.lt_succ_of_lt hi))]
    simp [h t (Nat.lt_succ_self t)]

theorem reassembleLoop_receivedUpTo (P : List Nat) (n : Nat)
    (hlen : P.length ≤ n * CHUNK_SIZE) :
    reassembleLoop (receivedUpTo P n) n = some P := by
  rw [reassembleLoop_eq_foldl (receivedUpTo P n) n (sliceCS P)
        (fun i hi => by rw [alGet_receivedUpTo]; simp [hi]),
      foldl_sliceCS]
  congr 1
  exact List.take_of_length_le hlen

theorem processChunk_first (P : List Nat) (cid : String) (n : Nat)
    (hb : ∀ b ∈ P, b < 256) (hn : 1 < n) :
    processChunk ⟨[]⟩ (ChunkedMessage.multiPacket cid 0 n (encodeB64 (sliceCS P 0)))
      = (none, ⟨[(cid, ⟨receivedUpTo P 1, n⟩)]⟩) := by
  have hne : ¬ ((1 : Nat) = n) := by omega
  simp only [processChunk, decodeB64_encodeB64 _ (sliceCS_bytes P hb 0)]
  simp [alGet, alUpdate, hne, receivedUpTo, List.range_succ]

theorem processChunk_mid (P : List Nat) (cid : String) (n t : Nat)
    (hb : ∀ b ∈ P, b < 256) (hne : t + 1 ≠ n) :
    processChunk ⟨[(cid, ⟨receivedUpTo P t, n⟩)]⟩
        (ChunkedMessage.multiPacket cid t n (encodeB64 (sliceCS P t)))
      = (none, ⟨[(cid, ⟨receivedUpTo P (t + 1), n⟩)]⟩) := by
  simp only [processChunk, decodeB64_encodeB64 _ (sliceCS_bytes P hb t)]
  simp [alGet, alUpdate_receivedUpTo, alUpdate, length_receivedUpTo, hne]

theorem processChunk_last (P : List Nat) (cid : String) (n t : Nat)
    (hb : ∀ b ∈ P, b < 256) (hn : t + 1 = n) (hlen : P.length ≤ n * CHUNK_SIZE) :
    processChunk ⟨[(cid, ⟨receivedUpTo P t, n⟩)]⟩
        (ChunkedMessage.multiPacket cid t n (encodeB64 (sliceCS P t)))
      = (some P, ⟨[]⟩) := by
  subst hn
  have hall : (List.range (t + 1)).all
      (fun i => (alGet i (receivedUpTo P (t + 1))).isSome) = true := by
    simp only [List.all_eq_true, List.mem_range]
    intro i hi
    rw [alGet_receivedUpTo]
    simp [hi]
  simp only [processChunk, decodeB64_encodeB64 _ (sliceCS_bytes P hb t)]
  simp [alGet, alUpdate_receivedUpTo, alUpdate, length_receivedUpTo, hall,
    reassembleLoop_receivedUpTo P (t + 1) hlen, alErase]

theorem processAll_chunks (P : List Nat) (cid : String) (hb : ∀ b ∈ P, b < 256)
    (n : Nat) (hlen : P.length ≤ n * CHUNK_SIZE) :
    ∀ c t, t + c = n → 1 ≤ t → 1 ≤ c →
      processAll ⟨[(cid, ⟨receivedUpTo P t, n⟩)]⟩
          ((List.range' t c).map fun i =>
            ChunkedMessage.multiPacket cid i n (encodeB64 (sliceCS P i)))
        = (List.replicate (c - 1) none ++ [some P], ⟨[]⟩) := by
  intro c
  induction c with
  | zero => intro t _ _ h3; omega
  | succ c ih =>
    intro t hsum ht _
    rw [List.range'_succ, List.map_cons]
    by_cases hc0 : c = 0
    · subst hc0
      have hn : t + 1 = n := by omega
      rw [processAll_cons, processChunk_last P cid n t hb hn hlen]
      simp [processAll]
    · obtain ⟨c', rfl⟩ : ∃ c', c = c' + 1 := ⟨c - 1, by omega⟩
      have hne : t + 1 ≠ n := by omega
      rw [processAll_cons, processChunk_mid P cid n t hb hne]
      rw [ih (t + 1) (by omega) (by omega) (by omega)]
      simp [List.replicate]

/-- **C1.** Fragment/Reassemble round-trip: for every byte payload `P` of at
most 10 MiB, feeding every element of `fragment P` to a fresh reassembler's
`process_chunk` returns `none` on all but the last chunk and `some P` on the
last.  At the boundary, a payload of exactly 45,000 bytes is fragmented as one
`SinglePacket` and 45,001 bytes as two chunks. -/
theorem fragment_reassemble_roundtrip (P : List Nat) (cid : String)
    (hbytes : ∀ b ∈ P, b < 256) (hsize : P.length ≤ 10 * 1024 * 1024) :
    (processAll ⟨[]⟩ (fragment cid P)).1
        = List.replicate ((fragment cid P).length - 1) none ++ [some P]
    ∧ (P.length = 45000 →
        fragment cid P = [ChunkedMessage.singlePacket (encodeB64 P)])
    ∧ (P.length = 45001 → (fragment cid P).length = 2) := by
  refine ⟨?_, ?_, ?_⟩
  · by_cases hle : P.length ≤ CHUNK_SIZE
    · rw [fragment, if_pos hle]
      rw [processAll_cons]
      simp only [processChunk, decodeB64_encodeB64 _ hbytes]
      simp [processAll]
    · have hn2 : 2 ≤ (P.length + CHUNK_SIZE - 1) / CHUNK_SIZE := by
        simp only [CHUNK_SIZE] at *
        omega
      have hlen : P.length ≤ ((P.length + CHUNK_SIZE - 1) / CHUNK_SIZE) * CHUNK_SIZE := by
        simp only [CHUNK_SIZE] at *
        omega
      rw [fragment, if_neg hle]
      generalize hgen : (P.length + CHUNK_SIZE - 1) / CHUNK_SIZE = n at hn2 hlen ⊢
      obtain ⟨m, rfl⟩ : ∃ m, n = m + 1 := ⟨n - 1, by omega⟩
      rw [List.range_eq_range', List.range'_succ, List.map_cons]
      rw [processAll_cons, processChunk_first P cid (m + 1) hbytes (by omega)]
      rw [processAll_chunks P cid hbytes (m + 1) hlen m 1 (by omega) le_rfl
        (by omega)]
      obtain ⟨m', rfl⟩ : ∃ m', m = m' + 1 := ⟨m - 1, by omega⟩
      simp [List.replicate]
  · intro h45
    rw [fragment, if_pos (by rw [h45]; simp [CHUNK_SIZE])]
  · intro h45
    rw [fragment, if_neg (by rw [h45]; simp [CHUNK_SIZE]), h45]
    simp [CHUNK_SIZE]

/-! ## Messages

The `Message` enum as the cluster runtime (node.rs, election.rs) constructs
and matches it.  Note that src/src/messages.rs declares a *stale* variant of
this enum: it lacks `DecryptionRequest`/`DecryptionResponse` and the
`client_address` field of `EncryptionRequest`, and declares
`Heartbeat`/`HeartbeatAck`/`LoadResponse` without the `load`/`processed_count`
fields that node.rs:641-646, node.rs:679-708, node.rs:1319-1323 and
election.rs:90-95 construct and pattern-match.  The runtime's field sets are
used here; the discrepancy itself is the subject of the C9 analysis below. -/

/-- `ReceivedImageInfo` (messages.rs:8-14). -/
structure ReceivedImageInfo where
  imageId : String
  fromUsername : String
  remainingViews : Nat
  timestamp : Int
deriving DecidableEq, Repr

/-- `Message`, with the field sets the cluster runtime uses.  `f64` loads are
embedded as `ℚ`. -/
inductive Message where
  | election (fromNode : Nat)
  | ok (fromNode : Nat)
  | coordinator (nodeId : Nat) (load : ℚ)
  | sessionRegister (clientId : String) (username : String)
  | sessionRegisterResponse (success : Bool) (error : Option String)
  | sessionUnregister (clientId : String) (username : String)
  | encryptionRequest (requestId : String) (clientUsername : String)
      (imageData : List Nat) (usernames : List String) (quota : Nat)
      (forwarded : Bool) (clientAddress : Option String)
  | encryptionResponse (requestId : String) (encryptedImage : List Nat)
      (success : Bool) (error : Option String)
  | decryptionRequest (requestId : String) (clientUsername : String)
      (encryptedImage : List Nat) (usernames : List String) (quota : Nat)
  | decryptionResponse (requestId : String) (decryptedImage : List Nat)
      (success : Bool) (error : Option String)
  | loadQuery (fromNode : Nat)
  | loadResponse (nodeId : Nat) (load : ℚ) (queueLength : Nat) (processedCount : Nat)
  | stateSync (fromNode : Nat)
  | stateSyncResponse (coordinatorId : Nat) (loadMetrics : List (Nat × ℚ))
      (timestamp : Int)
  | coordinatorQuery
  | coordinatorQueryResponse (coordinatorAddress : String)
  | heartbeat (fromNode : Nat) (load : ℚ) (processedCount : Nat)
  | heartbeatAck (fromNode : Nat) (load : ℚ) (processedCount : Nat)
  | sendImage (fromUsername : String) (toUsernames : List String)
      (encryptedImage : List Nat) (maxViews : Nat) (imageId : String)
  | sendImageResponse (success : Bool) (imageId : String) (error : Option String)
  | queryReceivedImages (username : String)
  | queryReceivedImagesResponse (images : List ReceivedImageInfo)
  | viewImage (username : String) (imageId : String)
  | viewImageResponse (success : Bool) (imageData : Option (List Nat))
      (remainingViews : Option Nat) (error : Option String)
  | checkUsernameAvailable (username : String)
  | checkUsernameAvailableResponse (username : String) (isAvailable : Bool)
deriving DecidableEq, Repr

/-- `NodeState` (messages.rs:183-187). -/
inductive NodeState where
  | active
  | failed
  | recovering
deriving DecidableEq, Repr

/-! ### C9: wire-format fields of Heartbeat / HeartbeatAck / LoadResponse

The field lists below transcribe, in declaration order, the named fields of
the relevant `Message` variants at the two places the repository defines or
uses them. -/

/-- Fields of `Message::Heartbeat` as declared in src/src/messages.rs:75. -/
def heartbeatFieldsDeclared : List String := ["from_node"]

/-- Fields of `Message::HeartbeatAck` as declared in src/src/messages.rs:76. -/
def heartbeatAckFieldsDeclared : List String := ["from_node"]

/-- Fields of `Message::LoadResponse` as declared in src/src/messages.rs:58. -/
def loadResponseFieldsDeclared : List String := ["node_id", "load", "queue_length"]

/-- Fields of `Message::Heartbeat` as constructed by node.rs:1319-1323 and
matched by node.rs:679. -/
def heartbeatFieldsUsed : List String := ["from_node", "load", "processed_count"]

/-- Fields of `Message::HeartbeatAck` as constructed by node.rs:704-708 and
matched by node.rs:711. -/
def heartbeatAckFieldsUsed : List String := ["from_node", "load", "processed_count"]

/-- Fields of `Message::LoadResponse` as constructed by node.rs:641-646 and
election.rs:90-95 and matched by node.rs:1488 and node.rs:1582. -/
def loadResponseFieldsUsed : List String :=
  ["node_id", "load", "queue_length", "processed_count"]

/-- **C9.** The claim says `Heartbeat`/`HeartbeatAck` carry exactly
`{from_node, load, processed_count}` and `LoadResponse` carries exactly
`{node_id, load, queue_length, processed_count}`.  The cluster runtime
(node.rs, election.rs) constructs and matches exactly those fields, but the
`Message` enum declared in src/src/messages.rs omits `load` and
`processed_count` from all three variants, contradicting the rest of the
repository (the crate cannot compile as given): the declared field sets
differ from the ones every use site requires. -/
theorem heartbeat_fields_mismatch :
    heartbeatFieldsUsed = ["from_node", "load", "processed_count"]
    ∧ loadResponseFieldsUsed = ["node_id", "load", "queue_length", "processed_count"]
    ∧ heartbeatAckFieldsUsed = heartbeatFieldsUsed
    ∧ heartbeatFieldsDeclared ≠ heartbeatFieldsUsed
    ∧ heartbeatAckFieldsDeclared ≠ heartbeatAckFieldsUsed
    ∧ loadResponseFieldsDeclared ≠ loadResponseFieldsUsed := by
  refine ⟨rfl, rfl, rfl, ?_, ?_, ?_⟩ <;> decide

/-! ## Per-recipient image store (node.rs: SendImage / QueryReceivedImages /
ViewImage arms of process_message) -/

/-- `StoredImage` (node.rs:15-24). -/
structure StoredImage where
  imageId : String
  fromUsername : String
  encryptedData : List Nat
  remainingViews : Nat
  maxViews : Nat
  timestamp : Int
deriving DecidableEq, Repr

/-- `stored_images`: username ↦ list of stored images (node.rs:45). -/
abbrev ImageStore := List (String × List StoredImage)

/-- The `SendImage` arm (node.rs:735-765): append one inbox entry per
recipient with `remaining_views = max_views`, reply success. -/
def sendImage (fromUsername : String) (toUsernames : List String)
    (encryptedImage : List Nat) (maxViews : Nat) (imageId : String)
    (timestamp : Int) (stored : ImageStore) : Message × ImageStore :=
  let stored' := toUsernames.foldl
    (fun s username =>
      alUpdate username
        ((alGet username s).getD []
          ++ [⟨imageId, fromUsername, encryptedImage, maxViews, maxViews, timestamp⟩])
        s)
    stored
  (Message.sendImageResponse true imageId none, stored')

/-- The `QueryReceivedImages` arm (node.rs:767-785): entries with positive
remaining views; read-only. -/
def queryReceivedImages (username : String) (stored : ImageStore) :
    Message × ImageStore :=
  let images := match alGet username stored with
    | some imgs =>
        (imgs.filter fun img => 0 < img.remainingViews).map fun img =>
          ReceivedImageInfo.mk img.imageId img.fromUsername img.remainingViews
            img.timestamp
    | none => []
  (Message.queryReceivedImagesResponse images, stored)

/-- `user_images.iter_mut().find(|i| i.image_id == image_id)` (node.rs:800):
the first stored image with the requested id. -/
def findImage (imageId : String) : List StoredImage → Option StoredImage
  | [] => none
  | img :: rest => if img.imageId = imageId then some img else findImage imageId rest

/-- The in-place `img.remaining_views -= 1` (node.rs:802) on the first image
with the requested id. -/
def decrementFirst (imageId : String) : List StoredImage → List StoredImage
  | [] => []
  | img :: rest =>
      if img.imageId = imageId then
        { img with remainingViews := img.remainingViews - 1 } :: rest
      else img :: decrementFirst imageId rest

/-- The `ViewImage` arm (node.rs:796-837). -/
def viewImage (username : String) (imageId : String) (stored : ImageStore) :
    Message × ImageStore :=
  match alGet username stored with
  | some userImages =>
      match findImage imageId userImages with
      | some img =>
          if 0 < img.remainingViews then
            (Message.viewImageResponse true (some img.encryptedData)
              (some (img.remainingViews - 1)) none,
             alUpdate username (decrementFirst imageId userImages) stored)
          else
            (Message.viewImageResponse false none (some 0)
              (some "No views remaining"), stored)
      | none =>
          (Message.viewImageResponse false none none (some "Image not found"),
           stored)
  | none =>
      (Message.viewImageResponse false none none (some "No images for this user"),
       stored)

/-- The `success` flag of a `ViewImageResponse`. -/
def viewSuccess : Message → Bool
  | .viewImageResponse success _ _ _ => success
  | _ => false

/-- **C3.** The ViewImage contract: success — returning the ciphertext and the
decremented count, and decrementing the store by exactly one — holds exactly
when the user's inbox exists, contains the image, and `remaining_views > 0`;
the three failures are distinguished as no-inbox, not-found and exhausted
(so with `max_views = 0` the very first view is rejected as exhausted). -/
theorem viewImage_contract (username imageId : String) (stored : ImageStore) :
    (viewSuccess (viewImage username imageId stored).1 = true
      ↔ ∃ userImages img, alGet username stored = some userImages
          ∧ findImage imageId userImages = some img ∧ 0 < img.remainingViews)
    ∧ (∀ userImages img, alGet username stored = some userImages →
        findImage imageId userImages = some img → 0 < img.remainingViews →
        viewImage username imageId stored
          = (Message.viewImageResponse true (some img.encryptedData)
              (some (img.remainingViews - 1)) none,
             alUpdate username (decrementFirst imageId userImages) stored))
    ∧ (∀ userImages img, alGet username stored = some userImages →
        findImage imageId userImages = some img → img.remainingViews = 0 →
        viewImage username imageId stored
          = (Message.viewImageResponse false none (some 0)
              (some "No views remaining"), stored))
    ∧ (∀ userImages, alGet username stored = some userImages →
        findImage imageId userImages = none →
        viewImage username imageId stored
          = (Message.viewImageResponse false none none (some "Image not found"),
             stored))
    ∧ (alGet username stored = none →
        viewImage username imageId stored
          = (Message.viewImageResponse false none none
              (some "No images for this user"), stored)) := by
  refine ⟨?_, ?_, ?_, ?_, ?_⟩
  · constructor
    · intro hs
      match h1 : alGet username stored with
      | none =>
        simp only [viewImage, h1, viewSuccess] at hs
        exact absurd hs (by decide)
      | some userImages =>
        match h2 : findImage imageId userImages with
        | none =>
          simp only [viewImage, h1, h2, viewSuccess] at hs
          exact absurd hs (by decide)
        | some img =>
          by_cases h3 : 0 < img.remainingViews
          · exact ⟨userImages, img, rfl, h2, h3⟩
          · simp only [viewImage, h1, h2, if_neg h3, viewSuccess] at hs
            exact absurd hs (by decide)
    · rintro ⟨userImages, img, h1, h2, h3⟩
      simp only [viewImage, h1, h2, if_pos h3, viewSuccess]
  · intro userImages img h1 h2 h3
    simp only [viewImage, h1, h2, if_pos h3]
  · intro userImages img h1 h2 h3
    simp only [viewImage, h1, h2, if_neg (by omega : ¬ 0 < img.remainingViews)]
  · intro userImages h1 h2
    simp only [viewImage, h1, h2]
  · intro h1
    simp only [viewImage, h1]

/-- Witness for C3, doubling as the claim's `max_views = 0` boundary case:
storing an image for "bob" with quota 0 and then viewing it yields the
exhausted error. -/
theorem viewImage_contract_witness :
    (sendImage "alice" ["bob"] [1, 2] 0 "img1" 7 []).2
        = [("bob", [⟨"img1", "alice", [1, 2], 0, 0, 7⟩])]
    ∧ viewImage "bob" "img1" [("bob", [⟨"img1", "alice", [1, 2], 0, 0, 7⟩])]
        = (Message.viewImageResponse false none (some 0)
            (some "No views remaining"),
           [("bob", [⟨"img1", "alice", [1, 2], 0, 0, 7⟩])]) := by
  refine ⟨rfl, ?_⟩
  exact (viewImage_contract "bob" "img1" _).2.2.1
    [⟨"img1", "alice", [1, 2], 0, 0, 7⟩] ⟨"img1", "alice", [1, 2], 0, 0, 7⟩
    rfl rfl rfl

/-! ### C4: the quota invariant over reachable stores -/

/-- The invariant `0 ≤ remaining_views ≤ max_views` for every stored image. -/
def QuotaInv (stored : ImageStore) : Prop :=
  ∀ username userImages, alGet username stored = some userImages →
    ∀ img ∈ userImages, 0 ≤ img.remainingViews ∧ img.remainingViews ≤ img.maxViews

/-- Store states reachable from the empty store through the three store
operations of process_message. -/
inductive ReachableStore : ImageStore → Prop where
  | empty : ReachableStore []
  | send (fromUsername : String) (toUsernames : List String)
      (encryptedImage : List Nat) (maxViews : Nat) (imageId : String)
      (timestamp : Int) {s : ImageStore} :
      ReachableStore s →
      ReachableStore (sendImage fromUsername toUsernames encryptedImage maxViews
        imageId timestamp s).2
  | view (username imageId : String) {s : ImageStore} :
      ReachableStore s → ReachableStore (viewImage username imageId s).2
  | query (username : String) {s : ImageStore} :
      ReachableStore s → ReachableStore (queryReceivedImages username s).2

theorem mem_decrementFirst (imageId : String) (l : List StoredImage)
    (img' : StoredImage) (h : img' ∈ decrementFirst imageId l) :
    ∃ img ∈ l, img'.remainingViews ≤ img.remainingViews
      ∧ img'.maxViews = img.maxViews := by
  induction l with
  | nil => simp [decrementFirst] at h
  | cons img rest ih =>
    by_cases h0 : img.imageId = imageId
    · simp only [decrementFirst, if_pos h0, List.mem_cons] at h
      rcases h with h | h
      · exact ⟨img, List.mem_cons_self img rest, by subst h; exact ⟨Nat.sub_le _ _, rfl⟩⟩
      · exact ⟨img', List.mem_cons_of_mem img h, le_rfl, rfl⟩
    · simp only [decrementFirst, if_neg h0, List.mem_cons] at h
      rcases h with h | h
      · exact ⟨img, List.mem_cons_self img rest, by subst h; exact ⟨le_rfl, rfl⟩⟩
      · obtain ⟨i, hi, hle, hmax⟩ := ih h
        exact ⟨i, List.mem_cons_of_mem img hi, hle, hmax⟩

theorem quotaInv_alUpdate (stored : ImageStore) (username : String)
    (v : List StoredImage) (hinv : QuotaInv stored)
    (hv : ∀ img ∈ v, img.remainingViews ≤ img.maxViews) :
    QuotaInv (alUpdate username v stored) := by
  intro u imgs hget img hmem
  by_cases hu : u = username
  · subst hu
    rw [alGet_alUpdate_self] at hget
    cases hget
    exact ⟨Nat.zero_le _, hv img hmem⟩
  · rw [alGet_alUpdate_ne _ _ _ _ hu] at hget
    exact hinv u imgs hget img hmem

theorem quotaInv_sendImage (fromUsername : String) (toUsernames : List String)
    (encryptedImage : List Nat) (maxViews : Nat) (imageId : String)
    (timestamp : Int) (stored : ImageStore) (hinv : QuotaInv stored) :
    QuotaInv (sendImage fromUsername toUsernames encryptedImage maxViews imageId
      timestamp stored).2 := by
  simp only [sendImage]
  induction toUsernames generalizing stored with
  | nil => exact hinv
  | cons u rest ih =>
    rw [List.foldl_cons]
    apply ih
    apply quotaInv_alUpdate _ _ _ hinv
    intro img hmem
    rw [List.mem_append] at hmem
    rcases hmem with hmem | hmem
    · match hget : alGet u stored with
      | none => rw [hget] at hmem; simp at hmem
      | some old =>
        rw [hget] at hmem
        exact (hinv u old hget img hmem).2
    · rw [List.mem_singleton] at hmem
      subst hmem
      exact le_rfl

theorem quotaInv_viewImage (username imageId : String) (stored : ImageStore)
    (hinv : QuotaInv stored) : QuotaInv (viewImage username imageId stored).2 := by
  match h1 : alGet username stored with
  | none => simp only [viewImage, h1]; exact hinv
  | some userImages =>
    match h2 : findImage imageId userImages with
    | none => simp only [viewImage, h1, h2]; exact hinv
    | some img =>
      by_cases h3 : 0 < img.remainingViews
      · simp only [viewImage, h1, h2, if_pos h3]
        apply quotaInv_alUpdate _ _ _ hinv
        intro img' hmem
        obtain ⟨i, hi, hle, hmax⟩ := mem_decrementFirst imageId userImages img' hmem
        exact hmax ▸ le_trans hle (hinv username userImages h1 i hi).2
      · simp only [viewImage, h1, h2, if_neg h3]
        exact hinv

theorem alGet_foldl_sendStep (u : String) (entry : StoredImage)
    (rest : List String) (s : ImageStore) (hu : u ∉ rest) :
    alGet u (rest.foldl
      (fun s' username =>
        alUpdate username ((alGet username s').getD [] ++ [entry]) s') s)
      = alGet u s := by
  induction rest generalizing s with
  | nil => rfl
  | cons u₀ rest ih =>
    rw [List.foldl_cons, ih _ (fun h => hu (List.mem_cons_of_mem u₀ h)),
      alGet_alUpdate_ne _ _ _ _ (fun h => hu (by rw [h]; exact List.mem_cons_self u₀ rest))]

theorem sendImage_establishes (fromUsername : String) (toUsernames : List String)
    (encryptedImage : List Nat) (maxViews : Nat) (imageId : String)
    (timestamp : Int) (stored : ImageStore) (u : String) (hu : u ∈ toUsernames) :
    ∃ imgs, alGet u (sendImage fromUsername toUsernames encryptedImage maxViews
        imageId timestamp stored).2 = some imgs
      ∧ (⟨imageId, fromUsername, encryptedImage, maxViews, maxViews, timestamp⟩
          : StoredImage) ∈ imgs := by
  simp only [sendImage]
  induction toUsernames generalizing stored with
  | nil => simp at hu
  | cons u₀ rest ih =>
    rw [List.foldl_cons]
    by_cases hr : u ∈ rest
    · exact ih _ hr
    · have hu0 : u = u₀ := by
        rcases List.mem_cons.mp hu with h | h
        · exact h
        · exact absurd h hr
      subst hu0
      rw [alGet_foldl_sendStep _ _ _ _ hr, alGet_alUpdate_self]
      exact ⟨_, rfl, List.mem_append_right _ (List.mem_singleton.mpr rfl)⟩

/-- **C4.** The quota invariant `0 ≤ remaining_views ≤ max_views` holds for
every stored image in every store state reachable through SendImage,
ViewImage and QueryReceivedImages from the empty store; moreover SendImage
establishes it by appending, for every recipient, an entry whose
`remaining_views` equals `max_views`. -/
theorem quota_invariant_reachable :
    (∀ stored, ReachableStore stored → QuotaInv stored)
    ∧ (∀ fromUsername toUsernames encryptedImage maxViews imageId timestamp
        stored u, u ∈ toUsernames →
        ∃ imgs, alGet u (sendImage fromUsername toUsernames encryptedImage
            maxViews imageId timestamp stored).2 = some imgs
          ∧ (⟨imageId, fromUsername, encryptedImage, maxViews, maxViews,
              timestamp⟩ : StoredImage) ∈ imgs) := by
  constructor
  · intro stored hreach
    induction hreach with
    | empty => intro u imgs h; simp [alGet] at h
    | send fromU toUs data maxV imgId ts _ ih => exact quotaInv_sendImage _ _ _ _ _ _ _ ih
    | view u imgId _ ih => exact quotaInv_viewImage _ _ _ ih
    | query u _ ih => exact ih
  · intro fromU toUs data maxV imgId ts stored u hu
    exact sendImage_establishes fromU toUs data maxV imgId ts stored u hu

/-- Witness for C4 at a concrete reachable store: send quota 2 to "bob", view
once; the invariant holds and the sent entry is present at `max_views`. -/
theorem quota_invariant_reachable_witness :
    QuotaInv (viewImage "bob" "i1"
      (sendImage "alice" ["bob"] [3] 2 "i1" 0 []).2).2
    ∧ ∃ imgs, alGet "bob" (sendImage "alice" ["bob"] [3] 2 "i1" 0 []).2 = some imgs
        ∧ (⟨"i1", "alice", [3], 2, 2, 0⟩ : StoredImage) ∈ imgs := by
  constructor
  · exact quota_invariant_reachable.1 _
      (ReachableStore.view "bob" "i1"
        (ReachableStore.send "alice" ["bob"] [3] 2 "i1" 0 ReachableStore.empty))
  · exact quota_invariant_reachable.2 "alice" ["bob"] [3] 2 "i1" 0 [] "bob"
      (List.mem_singleton.mpr rfl)

/-! ## Cloud node state and request handling (node.rs) -/

/-- `CachedLoadInfo` (node.rs:27-32).  The `timestamp` field only feeds the
freshness *logging* of find_lowest_load_node — its fresh and stale branches
store the same value into `node_data` (node.rs:977-990) — so it is omitted. -/
structure CachedLoadInfo where
  load : ℚ
  processedCount : Nat
deriving DecidableEq, Repr

/-- The mutable state of a `CloudNode` (node.rs:34-52), restricted to the
fields the verified operations read or write.  `peerAddresses` excludes the
node's own id (cloud_node.rs:30-38).  The chunk reassembler and chunk cache
are handled by the transport layer above. -/
structure NodeSt where
  id : Nat
  address : String
  state : NodeState
  currentLoad : ℚ
  activeRequests : Nat
  peerAddresses : List (Nat × String)
  processedRequests : Nat
  activeSessions : List (String × String)
  storedImages : ImageStore
  inFlightRequests : List String
  lastHeartbeat : List (Nat × Nat)
  failedNodes : List Nat
  peerLoadCache : List (Nat × CachedLoadInfo)
  coordinator : Option Nat
deriving Repr

/-- Oracle for the node's external interactions while it handles one message:
the compute adapter's outcome, the network round-trips (`none` = `Err`,
`some none` = `Ok(None)`, `some (some m)` = `Ok(Some(m))`), the parse/send
outcomes on the direct-to-client path, the `HashMap` iteration order inside
find_lowest_load_node, and the clock readings. -/
structure NodeEnv where
  lbOrder : List (Nat × ℚ × Nat)
  encryptResult : Option (List Nat)
  encryptError : String
  decryptResult : Option (List Nat)
  decryptError : String
  coordReply : Option (Option Message)
  workerReply : Option (Option Message)
  addrParseOk : Bool
  directSendOk : Bool
  now : Nat
  timestamp : Int

/-! ### find_lowest_load_node (node.rs:950-1033) -/

/-- The candidate table `node_data` (node.rs:957-998): self, plus every
non-failed peer with its cached load info (the fresh and the stale cache
branches store the same value), or `(my_load, 0)` for a peer with no cache
entry. -/
def nodeData (st : NodeSt) : List (Nat × ℚ × Nat) :=
  (st.id, st.currentLoad, st.processedRequests) ::
    ((st.peerAddresses.map Prod.fst).filter fun p => ¬ p ∈ st.failedNodes).map
      fun p =>
        match alGet p st.peerLoadCache with
        | some cached => (p, cached.load, cached.processedCount)
        | none => (p, st.currentLoad, 0)

/-- `total_processed` (node.rs:1004). -/
def totalProcessed (entries : List (Nat × ℚ × Nat)) : Nat :=
  (entries.map fun e => e.2.2).sum

/-- The hybrid score `0.7·load + 0.3·work_percentage·100` (node.rs:1010-1020),
with `work_percentage = processed / total_processed` when the total is
positive and `0` otherwise. -/
def hybridScore (tp : Nat) (load : ℚ) (processed : Nat) : ℚ :=
  7/10 * load + 3/10 * (if 0 < tp then (processed : ℚ) / (tp : ℚ) else 0) * 100

/-- One step of the selection loop (node.rs:1010-1029): an entry replaces the
best so far exactly when its score is strictly smaller; `best_score` starts at
`f64::MAX`, modelled as `none`. -/
def selectStep (tp : Nat) (best : Nat × Option ℚ) (e : Nat × ℚ × Nat) :
    Nat × Option ℚ :=
  match best.2 with
  | none => (e.1, some (hybridScore tp e.2.1 e.2.2))
  | some bestScore =>
      if hybridScore tp e.2.1 e.2.2 < bestScore
      then (e.1, some (hybridScore tp e.2.1 e.2.2)) else best

/-- The selection loop over the `node_data` entries in the `HashMap`'s
(unspecified) iteration order. -/
def selectFold (tp : Nat) (entries : List (Nat × ℚ × Nat))
    (init : Nat × Option ℚ) : Nat × Option ℚ :=
  entries.foldl (selectStep tp) init

/-- `find_lowest_load_node`'s result (node.rs:1003-1032), given the iteration
order `entries` of the `node_data` map; `best_node` starts at `self.id`. -/
def selectBest (selfId : Nat) (entries : List (Nat × ℚ × Nat)) : Nat :=
  (selectFold (totalProcessed entries) entries (selfId, none)).1

/-- `find_lowest_load_node` for a node state, parameterised by the iteration
order of `node_data` (a permutation of `nodeData st`). -/
def findLowestLoadNode (st : NodeSt) (order : List (Nat × ℚ × Nat)) : Nat :=
  selectBest st.id order

/-! ### The EncryptionRequest arm (node.rs:366-600)

The request-payload fields (`client_username`, `image_data`, `usernames`,
`quota`) are consumed only by the compute adapter and the forwarded copies of
the message, so they live in the environment's oracle outcomes. -/

/-- The dedup/insert block (node.rs:375-393) followed by the increment block
(node.rs:395-404); reached only when the request is not dropped.  A duplicate
with `forwarded = true` is *not* re-inserted into the in-flight set. -/
def acceptPhase (requestId : String) (st : NodeSt) : NodeSt :=
  let st1 := if requestId ∈ st.inFlightRequests then st
             else {st with inFlightRequests := requestId :: st.inFlightRequests}
  {st1 with activeRequests := st1.activeRequests + 1,
            currentLoad := ((st1.activeRequests + 1 : Nat) : ℚ)}

/-- The in-flight removal block (node.rs:583-587) followed by the saturating
decrement block (node.rs:589-597): `active = active.saturating_sub(1)` is the
truncated `Nat` subtraction, and `load` is set to the new `active`. -/
def finishPhase (requestId : String) (st : NodeSt) : NodeSt :=
  let st1 := {st with inFlightRequests := st.inFlightRequests.erase requestId}
  {st1 with activeRequests := st1.activeRequests - 1,
            currentLoad := ((st1.activeRequests - 1 : Nat) : ℚ)}

/-- `process_encryption_request` (node.rs:843-901): run the compute adapter
and bump `processed_requests` on success. -/
def processEncryptionRequest (env : NodeEnv) (requestId : String) (st : NodeSt) :
    Message × NodeSt :=
  match env.encryptResult with
  | some encryptedImage =>
      (Message.encryptionResponse requestId encryptedImage true none,
       {st with processedRequests := st.processedRequests + 1})
  | none =>
      (Message.encryptionResponse requestId [] false (some env.encryptError), st)

/-- The routing core of the EncryptionRequest arm (node.rs:406-581): forwarded
requests execute locally (with optional direct-to-client reply); otherwise the
request is relayed to the coordinator, or — when this node is the coordinator —
executed locally or forwarded to the lowest-load node.  The formatted tails of
the error strings (node.rs:502,512,565,575) are elided. -/
def requestCore (env : NodeEnv) (requestId : String) (forwarded : Bool)
    (clientAddress : Option String) (st : NodeSt) : Option Message × NodeSt :=
  if forwarded then
    let res := processEncryptionRequest env requestId st
    match clientAddress with
    | some _ =>
        if env.addrParseOk then
          if env.directSendOk then (none, res.2) else (some res.1, res.2)
        else (some res.1, res.2)
    | none => (some res.1, res.2)
  else
    let coordinatorId := st.coordinator.getD st.id
    if coordinatorId ≠ st.id then
      match env.coordReply with
      | some (some reply) => (some reply, st)
      | some none =>
          (some (Message.encryptionResponse requestId [] false
            (some "Coordinator did not respond")), st)
      | none =>
          (some (Message.encryptionResponse requestId [] false
            (some "Coordinator unreachable")), st)
    else
      if findLowestLoadNode st env.lbOrder = st.id then
        let res := processEncryptionRequest env requestId st
        (some res.1, res.2)
      else
        match env.workerReply with
        | some (some reply) => (some reply, st)
        | some none =>
            (some (Message.encryptionResponse requestId [] false
              (some "Selected node did not respond")), st)
        | none =>
            (some (Message.encryptionResponse requestId [] false
              (some "Forward to selected node failed")), st)

/-- The full EncryptionRequest arm (node.rs:366-600): duplicate non-forwarded
requests are silently dropped before any state change; otherwise accept,
route, then remove from in-flight and decrement. -/
def handleEncryptionRequest (env : NodeEnv) (requestId : String)
    (forwarded : Bool) (clientAddress : Option String) (st : NodeSt) :
    Option Message × NodeSt :=
  if requestId ∈ st.inFlightRequests ∧ forwarded = false then (none, st)
  else
    let stA := acceptPhase requestId st
    let res := requestCore env requestId forwarded clientAddress stA
    (res.1, finishPhase requestId res.2)

theorem requestCore_state (env : NodeEnv) (requestId : String) (forwarded : Bool)
    (clientAddress : Option String) (st : NodeSt) :
    (requestCore env requestId forwarded clientAddress st).2 = st
    ∨ (requestCore env requestId forwarded clientAddress st).2
        = (processEncryptionRequest env requestId st).2 := by
  simp only [requestCore]
  by_cases hf : forwarded = true
  · rw [if_pos hf]
    cases clientAddress with
    | none => right; rfl
    | some a =>
      by_cases hap : env.addrParseOk = true
      · rw [if_pos hap]
        by_cases hds : env.directSendOk = true
        · rw [if_pos hds]; right; rfl
        · rw [if_neg hds]; right; rfl
      · rw [if_neg hap]; right; rfl
  · rw [if_neg hf]
    by_cases hc : st.coordinator.getD st.id ≠ st.id
    · rw [if_pos hc]
      cases hcr : env.coordReply with
      | none => left; rfl
      | some o =>
        cases o with
        | none => left; rfl
        | some reply => left; rfl
    · rw [if_neg hc]
      by_cases hl : findLowestLoadNode st env.lbOrder = st.id
      · rw [if_pos hl]; right; rfl
      · rw [if_neg hl]
        cases hwr : env.workerReply with
        | none => left; rfl
        | some o =>
          cases o with
          | none => left; rfl
          | some reply => left; rfl

theorem processEncryptionRequest_active (env : NodeEnv) (requestId : String)
    (st : NodeSt) :
    (processEncryptionRequest env requestId st).2.activeRequests
      = st.activeRequests := by
  unfold processEncryptionRequest
  cases env.encryptResult <;> rfl

theorem acceptPhase_active (requestId : String) (st : NodeSt) :
    (acceptPhase requestId st).activeRequests = st.activeRequests + 1 := by
  unfold acceptPhase
  by_cases h : requestId ∈ st.inFlightRequests <;> simp [h]

theorem finishPhase_active (requestId : String) (st : NodeSt) :
    (finishPhase requestId st).activeRequests = st.activeRequests - 1 := rfl

/-- **C2.** Active-request accounting for every accepted EncryptionRequest:
acceptance increments `active_requests` by one, the routing core leaves it
unchanged, and the final reply decrements it exactly once (saturating `Nat`
subtraction), so its value after the final reply equals its value before
acceptance — a net change of zero, never negative. -/
theorem activeRequests_net_zero (env : NodeEnv) (requestId : String)
    (forwarded : Bool) (clientAddress : Option String) (st : NodeSt)
    (haccepted : ¬ (requestId ∈ st.inFlightRequests ∧ forwarded = false)) :
    (acceptPhase requestId st).activeRequests = st.activeRequests + 1
    ∧ (requestCore env requestId forwarded clientAddress
        (acceptPhase requestId st)).2.activeRequests
        = st.activeRequests + 1
    ∧ (handleEncryptionRequest env requestId forwarded clientAddress
        st).2.activeRequests = st.activeRequests := by
  have hcore : (requestCore env requestId forwarded clientAddress
      (acceptPhase requestId st)).2.activeRequests = st.activeRequests + 1 := by
    rcases requestCore_state env requestId forwarded clientAddress
        (acceptPhase requestId st) with h | h
    · rw [h, acceptPhase_active]
    · rw [h, processEncryptionRequest_active, acceptPhase_active]
  refine ⟨acceptPhase_active requestId st, hcore, ?_⟩
  unfold handleEncryptionRequest
  rw [if_neg haccepted]
  show (finishPhase requestId _).activeRequests = st.activeRequests
  rw [finishPhase_active, hcore]
  omega

/-- Witness for C2 at a concrete accepted request. -/
theorem activeRequests_net_zero_witness :
    ¬ (("r1" : String) ∈ (["r0"] : List String) ∧ false = false)
    ∧ (handleEncryptionRequest
        ⟨[], some [5], "", none, "", none, none, true, true, 0, 0⟩ "r1" false none
        ⟨1, "a", NodeState.active, 2, 2, [], 0, [], [], ["r0"], [], [], [],
          none⟩).2.activeRequests = 2 := by
  refine ⟨by decide, ?_⟩
  exact (activeRequests_net_zero
    ⟨[], some [5], "", none, "", none, none, true, true, 0, 0⟩ "r1" false none
    ⟨1, "a", NodeState.active, 2, 2, [], 0, [], [], ["r0"], [], [], [], none⟩
    (by decide)).2.2

theorem acceptPhase_processed (requestId : String) (st : NodeSt) :
    (acceptPhase requestId st).processedRequests = st.processedRequests := by
  unfold acceptPhase
  by_cases h : requestId ∈ st.inFlightRequests <;> simp [h]

theorem processEncryptionRequest_processed (env : NodeEnv) (requestId : String)
    (st : NodeSt) :
    (processEncryptionRequest env requestId st).2.processedRequests
      = st.processedRequests + (if env.encryptResult.isSome then 1 else 0) := by
  cases h : env.encryptResult <;> simp [processEncryptionRequest, h]

theorem requestCore_forwarded_state (env : NodeEnv) (requestId : String)
    (clientAddress : Option String) (st : NodeSt) :
    (requestCore env requestId true clientAddress st).2
      = (processEncryptionRequest env requestId st).2 := by
  cases clientAddress with
  | none => simp [requestCore]
  | some a =>
    by_cases hap : env.addrParseOk = true
    · by_cases hds : env.directSendOk = true
      · simp [requestCore, hap, hds]
      · simp [requestCore, hap, hds]
    · simp [requestCore, hap]

/-- **C5.** Deduplication: an EncryptionRequest whose `request_id` is already
in flight is silently dropped — no response, no state change — when
`forwarded = false`; with `forwarded = true` it is accepted and processed
anyway (the compute adapter runs, bumping `processed_requests` on success). -/
theorem duplicate_request_dedup (env : NodeEnv) (requestId : String)
    (clientAddress : Option String) (st : NodeSt)
    (hdup : requestId ∈ st.inFlightRequests) :
    handleEncryptionRequest env requestId false clientAddress st = (none, st)
    ∧ (handleEncryptionRequest env requestId true clientAddress
        st).2.processedRequests
        = st.processedRequests + (if env.encryptResult.isSome then 1 else 0) := by
  constructor
  · unfold handleEncryptionRequest
    rw [if_pos ⟨hdup, rfl⟩]
  · unfold handleEncryptionRequest
    rw [if_neg (by simp)]
    show (finishPhase requestId
      (requestCore env requestId true clientAddress
        (acceptPhase requestId st)).2).processedRequests = _
    show (requestCore env requestId true clientAddress
      (acceptPhase requestId st)).2.processedRequests = _
    rw [requestCore_forwarded_state, processEncryptionRequest_processed,
      acceptPhase_processed]

/-- Witness for C5: a duplicate of an in-flight request on a concrete node is
dropped without response or state change when not forwarded, and is processed
(the processed counter advances) when forwarded. -/
theorem duplicate_request_dedup_witness :
    handleEncryptionRequest
        ⟨[], some [9], "", none, "", none, none, true, true, 0, 0⟩ "r7" false none
        ⟨2, "a", NodeState.active, 1, 1, [], 4, [], [], ["r7"], [], [], [], none⟩
      = (none,
         ⟨2, "a", NodeState.active, 1, 1, [], 4, [], [], ["r7"], [], [], [], none⟩)
    ∧ (handleEncryptionRequest
        ⟨[], some [9], "", none, "", none, none, true, true, 0, 0⟩ "r7" true none
        ⟨2, "a", NodeState.active, 1, 1, [], 4, [], [], ["r7"], [], [], [],
          none⟩).2.processedRequests = 5 := by
  have h := duplicate_request_dedup
    ⟨[], some [9], "", none, "", none, none, true, true, 0, 0⟩ "r7" none
    ⟨2, "a", NodeState.active, 1, 1, [], 4, [], [], ["r7"], [], [], [], none⟩
    (by decide)
  exact ⟨h.1, by rw [h.2]; rfl⟩

/-! ### process_message dispatch, the Failed-state guard, and the heartbeat
sender (node.rs:152-289, 336-841, 1288-1344) -/

/-- `process_message` (node.rs:336-841).  The Election arm delegates its
outbound sends to the election manager and changes no local state
(node.rs:621-635); compute results, network replies and clock readings come
from the environment. -/
def processMessage (env : NodeEnv) (msg : Message) (st : NodeSt) :
    Option Message × NodeSt :=
  match msg with
  | .sessionRegister clientId username =>
      if (alGet username st.activeSessions).isSome then
        (some (.sessionRegisterResponse false
          (some "Username is already in use")), st)
      else
        (some (.sessionRegisterResponse true none),
         {st with activeSessions := alUpdate username clientId st.activeSessions})
  | .sessionUnregister _ username =>
      (none, {st with activeSessions := alErase username st.activeSessions})
  | .encryptionRequest requestId _ _ _ _ forwarded clientAddress =>
      handleEncryptionRequest env requestId forwarded clientAddress st
  | .decryptionRequest requestId _ _ _ _ =>
      (match env.decryptResult with
       | some decryptedImage =>
           some (.decryptionResponse requestId decryptedImage true none)
       | none =>
           some (.decryptionResponse requestId [] false (some env.decryptError)),
       st)
  | .election _ => (none, st)
  | .loadQuery _ =>
      (some (.loadResponse st.id st.currentLoad st.activeRequests
        st.processedRequests), st)
  | .coordinator nodeId _ => (none, {st with coordinator := some nodeId})
  | .stateSync _ =>
      (some (.stateSyncResponse (st.coordinator.getD st.id) [] env.timestamp), st)
  | .coordinatorQuery =>
      (some (.coordinatorQueryResponse
        ((alGet (st.coordinator.getD st.id) st.peerAddresses).getD st.address)),
       st)
  | .heartbeat fromNode load processedCount =>
      (some (.heartbeatAck st.id st.currentLoad st.processedRequests),
       {st with lastHeartbeat := alUpdate fromNode env.now st.lastHeartbeat,
                peerLoadCache :=
                  alUpdate fromNode ⟨load, processedCount⟩ st.peerLoadCache,
                failedNodes := st.failedNodes.erase fromNode})
  | .heartbeatAck fromNode load processedCount =>
      (none,
       {st with lastHeartbeat := alUpdate fromNode env.now st.lastHeartbeat,
                peerLoadCache :=
                  alUpdate fromNode ⟨load, processedCount⟩ st.peerLoadCache,
                failedNodes := st.failedNodes.erase fromNode})
  | .sendImage fromUsername toUsernames encryptedImage maxViews imageId =>
      let res := sendImage fromUsername toUsernames encryptedImage maxViews
        imageId env.timestamp st.storedImages
      (some res.1, {st with storedImages := res.2})
  | .queryReceivedImages username =>
      let res := queryReceivedImages username st.storedImages
      (some res.1, {st with storedImages := res.2})
  | .checkUsernameAvailable username =>
      (some (.checkUsernameAvailableResponse username
        (!(alGet username st.activeSessions).isSome)), st)
  | .viewImage username imageId =>
      let res := viewImage username imageId st.storedImages
      (some res.1, {st with storedImages := res.2})
  | _ => (none, st)

/-- The Failed-state guard of handle_datagram (node.rs:158-164): a node in
`Failed` state returns before parsing, reassembly, retransmission handling,
caching and dispatch, producing no response and no state change; otherwise
the reassembled message reaches process_message (node.rs:237). -/
def handleDatagram (env : NodeEnv) (msg : Message) (st : NodeSt) :
    Option Message × NodeSt :=
  if st.state = NodeState.failed then (none, st)
  else processMessage env msg st

/-- One iteration of the heartbeat sender loop (node.rs:1310-1343): a
heartbeat carrying the node's current load and processed count is sent to
every peer.  The loop body contains no check of the node's own state. -/
def heartbeatTick (st : NodeSt) : List (Nat × Message) :=
  st.peerAddresses.map fun pa =>
    (pa.1, Message.heartbeat st.id st.currentLoad st.processedRequests)

/-- A node in `Failed` state with one peer. -/
def failedNodeSt : NodeSt :=
  ⟨1, "10.0.0.1:8001", NodeState.failed, 0, 0, [(2, "10.0.0.2:8002")], 0, [],
   [], [], [], [], [], none⟩

/-- Counterexample to C8 as stated: a peer in `Failed` state still emits
outbound traffic — its heartbeat sender task keeps sending heartbeats to
every peer, because the loop never consults the node state. -/
theorem failed_node_still_heartbeats :
    failedNodeSt.state = NodeState.failed
    ∧ heartbeatTick failedNodeSt = [(2, Message.heartbeat 1 0 0)]
    ∧ heartbeatTick failedNodeSt ≠ [] := by
  refine ⟨rfl, rfl, by decide⟩

/-- **C8 (amended).** While a peer's state is Failed it drops every inbound
datagram, producing no response and no state change; but its outbound
heartbeats are not suppressed: the heartbeat sender's output is independent
of the node's state, so a Failed peer keeps emitting heartbeats. -/
theorem failed_state_inbound_silence (env : NodeEnv) (msg : Message)
    (st : NodeSt) (hfailed : st.state = NodeState.failed) :
    handleDatagram env msg st = (none, st)
    ∧ ∀ s : NodeState, heartbeatTick {st with state := s} = heartbeatTick st := by
  refine ⟨?_, fun s => rfl⟩
  unfold handleDatagram
  rw [if_pos hfailed]

/-- Witness for C8 (amended) at the concrete Failed node. -/
theorem failed_state_inbound_silence_witness :
    failedNodeSt.state = NodeState.failed
    ∧ handleDatagram ⟨[], none, "", none, "", none, none, false, false, 0, 0⟩
        (Message.loadQuery 2) failedNodeSt = (none, failedNodeSt) :=
  ⟨rfl, (failed_state_inbound_silence _ _ _ rfl).1⟩

/-! ### C6: the load-balancer selection -/

theorem selectFold_spec (tp : Nat) :
    ∀ (l : List (Nat × ℚ × Nat)) (b : Nat × Option ℚ),
      (selectFold tp l b = b
        ∧ ∀ e ∈ l, ∃ bs, b.2 = some bs ∧ bs ≤ hybridScore tp e.2.1 e.2.2)
      ∨ (∃ e ∈ l, selectFold tp l b = (e.1, some (hybridScore tp e.2.1 e.2.2))
          ∧ (∀ e' ∈ l, hybridScore tp e.2.1 e.2.2 ≤ hybridScore tp e'.2.1 e'.2.2)
          ∧ (∀ bs, b.2 = some bs → hybridScore tp e.2.1 e.2.2 < bs)) := by
  intro l
  induction l with
  | nil => intro b; left; exact ⟨rfl, by simp⟩
  | cons e l ih =>
    intro b
    have hstep : selectFold tp (e :: l) b = selectFold tp l (selectStep tp b e) :=
      rfl
    match hb : b.2 with
    | none =>
      have hse : selectStep tp b e = (e.1, some (hybridScore tp e.2.1 e.2.2)) := by
        simp [selectStep, hb]
      rcases ih (selectStep tp b e) with ⟨hfold, hall⟩ | ⟨e', he', hfold, hmin, himp⟩
      · right
        refine ⟨e, List.mem_cons_self e l, by rw [hstep, hfold, hse], ?_, ?_⟩
        · intro e' he'
          rcases List.mem_cons.mp he' with h | h
          · subst h; exact le_refl _
          · obtain ⟨bs, hbs, hle⟩ := hall e' h
            rw [hse] at hbs
            have hbs' := Option.some.inj hbs
            rw [← hbs'] at hle
            exact hle
        · intro bs hbs; cases hbs
      · right
        refine ⟨e', List.mem_cons_of_mem e he', by rw [hstep]; exact hfold, ?_, ?_⟩
        · intro e'' he''
          rcases List.mem_cons.mp he'' with h | h
          · subst h
            exact le_of_lt (himp _ (by rw [hse]))
          · exact hmin e'' h
        · intro bs hbs; cases hbs
    | some bs₀ =>
      by_cases hlt : hybridScore tp e.2.1 e.2.2 < bs₀
      · have hse : selectStep tp b e = (e.1, some (hybridScore tp e.2.1 e.2.2)) := by
          simp [selectStep, hb, hlt]
        rcases ih (selectStep tp b e) with ⟨hfold, hall⟩ | ⟨e', he', hfold, hmin, himp⟩
        · right
          refine ⟨e, List.mem_cons_self e l, by rw [hstep, hfold, hse], ?_, ?_⟩
          · intro e' he'
            rcases List.mem_cons.mp he' with h | h
            · subst h; exact le_refl _
            · obtain ⟨bs, hbs, hle⟩ := hall e' h
              rw [hse] at hbs
              have hbs' := Option.some.inj hbs
              rw [← hbs'] at hle
              exact hle
          · intro bs hbs
            cases Option.some.inj hbs
            exact hlt
        · right
          refine ⟨e', List.mem_cons_of_mem e he', by rw [hstep]; exact hfold, ?_, ?_⟩
          · intro e'' he''
            rcases List.mem_cons.mp he'' with h | h
            · subst h
              exact le_of_lt (himp _ (by rw [hse]))
            · exact hmin e'' h
          · intro bs hbs
            cases Option.some.inj hbs
            exact lt_trans (himp _ (by rw [hse])) hlt
      · have hse : selectStep tp b e = b := by
          simp [selectStep, hb, hlt]
        rcases ih (selectStep tp b e) with ⟨hfold, hall⟩ | ⟨e', he', hfold, hmin, himp⟩
        · left
          refine ⟨by rw [hstep, hfold, hse], ?_⟩
          intro e' he'
          rcases List.mem_cons.mp he' with h | h
          · subst h; exact ⟨bs₀, rfl, not_lt.mp hlt⟩
          · obtain ⟨bs, hbs, hle⟩ := hall e' h
            rw [hse, hb] at hbs
            exact ⟨bs, hbs, hle⟩
        · right
          refine ⟨e', List.mem_cons_of_mem e he', by rw [hstep]; exact hfold, ?_, ?_⟩
          · intro e'' he''
            rcases List.mem_cons.mp he'' with h | h
            · subst h
              have h1 : hybridScore tp e'.2.1 e'.2.2 < bs₀ :=
                himp bs₀ (by rw [hse]; exact hb)
              exact le_of_lt (lt_of_lt_of_le h1 (not_lt.mp hlt))
            · exact hmin e'' h
          · intro bs hbs
            cases Option.some.inj hbs
            exact himp bs₀ (by rw [hse]; exact hb)

/-- **C6 (amended).** `find_lowest_load_node` considers self and every
non-failed peer (cached load data, with self's load as the fallback for an
uncached peer), scores each candidate `0.7·load + 0.3·(processed/Σ)·100`, and
returns a candidate achieving the lowest score — for every iteration order of
the `node_data` hash map.  Ties go to the first minimal entry in that
(unspecified) order, not to the lowest peer id. -/
theorem findLowestLoadNode_min (st : NodeSt) (order : List (Nat × ℚ × Nat))
    (hperm : order.Perm (nodeData st)) :
    ∃ e ∈ nodeData st, e.1 = findLowestLoadNode st order
      ∧ ∀ e' ∈ nodeData st,
          hybridScore (totalProcessed (nodeData st)) e.2.1 e.2.2
            ≤ hybridScore (totalProcessed (nodeData st)) e'.2.1 e'.2.2 := by
  have htp : totalProcessed order = totalProcessed (nodeData st) := by
    unfold totalProcessed
    exact (hperm.map _).sum_eq
  have hne : order ≠ [] := by
    intro h
    have hl := hperm.length_eq
    rw [h] at hl
    simp [nodeData] at hl
  rcases selectFold_spec (totalProcessed order) order (st.id, none) with
    ⟨_, hall⟩ | ⟨e, he, hfold, hmin, _⟩
  · obtain ⟨e, he⟩ := List.exists_mem_of_ne_nil order hne
    obtain ⟨bs, hbs, _⟩ := hall e he
    cases hbs
  · refine ⟨e, hperm.mem_iff.mp he, ?_, ?_⟩
    · unfold findLowestLoadNode selectBest
      rw [hfold]
    · intro e' he'
      rw [← htp]
      exact hmin e' (hperm.mem_iff.mpr he')

/-- Witness for C6 (amended) at a concrete node: a coordinator (id 3) at load
2 with peer 4 cached at load 1 — the returned node achieves the minimal
score. -/
theorem findLowestLoadNode_min_witness :
    ∃ e ∈ nodeData ⟨3, "10.0.0.3:8003", NodeState.active, 2, 2,
        [(4, "10.0.0.4:8004")], 5, [], [], [], [], [], [(4, ⟨1, 3⟩)], some 3⟩,
      e.1 = findLowestLoadNode ⟨3, "10.0.0.3:8003", NodeState.active, 2, 2,
          [(4, "10.0.0.4:8004")], 5, [], [], [], [], [], [(4, ⟨1, 3⟩)], some 3⟩
          [(4, (1, 3)), (3, (2, 5))]
        ∧ ∀ e' ∈ nodeData ⟨3, "10.0.0.3:8003", NodeState.active, 2, 2,
            [(4, "10.0.0.4:8004")], 5, [], [], [], [], [], [(4, ⟨1, 3⟩)],
            some 3⟩,
          hybridScore (totalProcessed (nodeData ⟨3, "10.0.0.3:8003",
              NodeState.active, 2, 2, [(4, "10.0.0.4:8004")], 5, [], [], [],
              [], [], [(4, ⟨1, 3⟩)], some 3⟩)) e.2.1 e.2.2
            ≤ hybridScore (totalProcessed (nodeData ⟨3, "10.0.0.3:8003",
              NodeState.active, 2, 2, [(4, "10.0.0.4:8004")], 5, [], [], [],
              [], [], [(4, ⟨1, 3⟩)], some 3⟩)) e'.2.1 e'.2.2 :=
  findLowestLoadNode_min _ [(4, (1, 3)), (3, (2, 5))] (by decide)

/-- A coordinator (id 1) with one peer (id 2), both at load 0 and processed
count 0: the two candidates tie at score 0. -/
def tieSt : NodeSt :=
  ⟨1, "10.0.0.1:8001", NodeState.active, 0, 0, [(2, "10.0.0.2:8002")], 0, [],
   [], [], [], [], [(2, ⟨0, 0⟩)], some 1⟩

/-- Counterexample to C6 as stated: candidates 1 and 2 tie (identical load and
processed count), and under the hash-map iteration order that visits peer 2
first, `find_lowest_load_node` returns 2 — not the lowest peer id 1.  Ties are
broken by the unspecified iteration order, not by peer id. -/
theorem findLowest_tie_not_by_id :
    nodeData tieSt = [(1, (0, 0)), (2, (0, 0))]
    ∧ [((2 : Nat), ((0 : ℚ), (0 : Nat))), (1, (0, 0))].Perm (nodeData tieSt)
    ∧ findLowestLoadNode tieSt [(2, (0, 0)), (1, (0, 0))] = 2 := by
  refine ⟨by decide, by decide, ?_⟩
  have hscore : hybridScore (totalProcessed [(2, (0, 0)), (1, (0, 0))]) 0 0 = 0 := by
    norm_num [hybridScore, totalProcessed]
  simp [findLowestLoadNode, selectBest, selectFold, selectStep, hscore,
    List.foldl, lt_irrefl]

/-! ### C7: election hysteresis (node.rs:1615-1641) -/

/-- The `should_change` decision of trigger_election (node.rs:1617-1641):
keep the coordinator when it already is the winner; when its load is known,
replace it only on a relative improvement above 20%; replace it when no
coordinator exists or its load is unknown. -/
def shouldChangeCoordinator (currentCoordinator : Option Nat)
    (allLoads : List (Nat × ℚ)) (lowestNode : Nat) (lowestLoad : ℚ) : Bool :=
  match currentCoordinator with
  | none => true
  | some currentCoord =>
      if currentCoord = lowestNode then false
      else
        match alGet currentCoord allLoads with
        | some currentCoordLoad =>
            decide ((currentCoordLoad - lowestLoad)
              / max currentCoordLoad (1/100) > 1/5)
        | none => true

/-- **C7.** Hysteresis: in an election where a coordinator exists and its load
is known (and the winner is the entry of lowest load, so its recorded load is
`lowestLoad`), the winner replaces the coordinator iff
`(current_load − winner_load) / max(current_load, 0.01) > 0.20`. -/
theorem election_hysteresis (currentCoord : Nat) (allLoads : List (Nat × ℚ))
    (lowestNode : Nat) (lowestLoad currentCoordLoad : ℚ)
    (hcur : alGet currentCoord allLoads = some currentCoordLoad)
    (hlow : alGet lowestNode allLoads = some lowestLoad) :
    shouldChangeCoordinator (some currentCoord) allLoads lowestNode lowestLoad
        = true
      ↔ (currentCoordLoad - lowestLoad) / max currentCoordLoad (1/100)
          > 1/5 := by
  simp only [shouldChangeCoordinator]
  by_cases heq : currentCoord = lowestNode
  · subst heq
    rw [hcur] at hlow
    have h0 := Option.some.inj hlow
    subst h0
    rw [if_pos rfl]
    constructor
    · intro h; cases h
    · intro h
      rw [sub_self, zero_div] at h
      exact absurd h (by norm_num)
  · rw [if_neg heq, hcur]
    exact decide_eq_true_iff

/-- Witness for C7: coordinator 1 at load 10, winner 2 at load 1, an
improvement of 90% — the coordinator is replaced. -/
theorem election_hysteresis_witness :
    shouldChangeCoordinator (some 1) [(1, 10), (2, 1)] 2 1 = true :=
  (election_hysteresis 1 [(1, 10), (2, 1)] 2 1 10 rfl rfl).mpr (by
    rw [max_eq_left (by norm_num : (1/100 : ℚ) ≤ 10)]
    norm_num)

/-! ### C10: direct-to-client replies and the retransmission cache
(node.rs:171-196, 240-286, 292-333) -/

/-- An outbound datagram: a chunk envelope or a raw (unchunked) message. -/
inductive Datagram where
  | chunk (c : ChunkedMessage)
  | raw (m : Message)
deriving DecidableEq, Repr

/-- The `needs_chunking` test (node.rs:247-252 and node.rs:303-308). -/
def needsChunking : Message → Bool
  | .encryptionResponse _ _ _ _ => true
  | .decryptionResponse _ _ _ _ => true
  | .viewImageResponse _ _ _ _ => true
  | _ => false

/-- `send_response_to_client` (node.rs:292-333): fragment (when needed) and
send directly to the client; `chunk_cache` is never read or written, so it is
returned unchanged. -/
def sendResponseToClient (response : Message) (responseBytes : List Nat)
    (freshChunkId : String) (cache : List (String × List ChunkedMessage)) :
    List Datagram × List (String × List ChunkedMessage) :=
  if needsChunking response then
    ((fragment freshChunkId responseBytes).map Datagram.chunk, cache)
  else ([Datagram.raw response], cache)

/-- The reply path of handle_datagram (node.rs:240-286): as above, but a reply
whose first chunk is a `MultiPacket` is recorded in `chunk_cache` under its
chunk id before the chunks are sent (node.rs:260-265). -/
def sendReplyFromHandleDatagram (response : Message) (responseBytes : List Nat)
    (freshChunkId : String) (cache : List (String × List ChunkedMessage)) :
    List Datagram × List (String × List ChunkedMessage) :=
  if needsChunking response then
    ((fragment freshChunkId responseBytes).map Datagram.chunk,
     match (fragment freshChunkId responseBytes).head? with
     | some (ChunkedMessage.multiPacket chunkId _ _ _) =>
         alUpdate chunkId (fragment freshChunkId responseBytes) cache
     | _ => cache)
  else ([Datagram.raw response], cache)

/-- The RetransmitRequest arm of handle_datagram (node.rs:171-196): re-emit
exactly the requested indices from the cached chunk list, or nothing at all
when the chunk id is not cached. -/
def handleRetransmitRequest (chunkId : String) (missingIndices : List Nat)
    (cache : List (String × List ChunkedMessage)) : List Datagram :=
  match alGet chunkId cache with
  | some cachedChunks =>
      missingIndices.filterMap fun index =>
        (cachedChunks.get? index).map Datagram.chunk
  | none => []

/-- **C10.** A reply sent directly to the client via send_response_to_client
is fragmented and sent but never inserted into `chunk_cache`, so a later
RetransmitRequest for its (fresh) chunk id finds nothing and retransmits
nothing; by contrast, the handle_datagram reply path does record a
multi-chunk reply in the cache. -/
theorem direct_reply_not_cached (response : Message) (responseBytes : List Nat)
    (freshChunkId : String) (cache : List (String × List ChunkedMessage))
    (missingIndices : List Nat)
    (hfresh : alGet freshChunkId cache = none) :
    (sendResponseToClient response responseBytes freshChunkId cache).2 = cache
    ∧ handleRetransmitRequest freshChunkId missingIndices
        (sendResponseToClient response responseBytes freshChunkId cache).2 = []
    ∧ (needsChunking response = true → CHUNK_SIZE < responseBytes.length →
        alGet freshChunkId
          (sendReplyFromHandleDatagram response responseBytes freshChunkId
            cache).2
          = some (fragment freshChunkId responseBytes)) := by
  have h1 : (sendResponseToClient response responseBytes freshChunkId cache).2
      = cache := by
    unfold sendResponseToClient
    by_cases h : needsChunking response = true
    · rw [if_pos h]
    · rw [if_neg h]
  refine ⟨h1, ?_, ?_⟩
  · rw [h1]
    unfold handleRetransmitRequest
    rw [hfresh]
  · intro hneeds hbig
    have hhead : (fragment freshChunkId responseBytes).head?
        = some (ChunkedMessage.multiPacket freshChunkId 0
            ((responseBytes.length + CHUNK_SIZE - 1) / CHUNK_SIZE)
            (encodeB64 (sliceCS responseBytes 0))) := by
      rw [fragment, if_neg (by omega)]
      obtain ⟨m, hm⟩ :
          ∃ m, (responseBytes.length + CHUNK_SIZE - 1) / CHUNK_SIZE = m + 1 := by
        refine ⟨(responseBytes.length + CHUNK_SIZE - 1) / CHUNK_SIZE - 1, ?_⟩
        have h2 : 2 ≤ (responseBytes.length + CHUNK_SIZE - 1) / CHUNK_SIZE := by
          simp only [CHUNK_SIZE] at *
          omega
        omega
      rw [hm, List.range_eq_range', List.range'_succ, List.map_cons,
        List.head?_cons]
    unfold sendReplyFromHandleDatagram
    rw [if_pos hneeds]
    show alGet freshChunkId
      (match (fragment freshChunkId responseBytes).head? with
       | some (ChunkedMessage.multiPacket chunkId _ _ _) =>
           alUpdate chunkId (fragment freshChunkId responseBytes) cache
       | _ => cache) = _
    rw [hhead]
    exact alGet_alUpdate_self _ _ _

/-- Witness for C10 on a concrete small reply and empty cache. -/
theorem direct_reply_not_cached_witness :
    (sendResponseToClient (Message.viewImageResponse true none none none)
        [1, 2, 3] "c9" []).2 = []
    ∧ handleRetransmitRequest "c9" [0, 1]
        (sendResponseToClient (Message.viewImageResponse true none none none)
          [1, 2, 3] "c9" []).2 = [] := by
  have h := direct_reply_not_cached
    (Message.viewImageResponse true none none none) [1, 2, 3] "c9" [] [0, 1] rfl
  exact ⟨h.1, h.2.1⟩

/-- Witness for C1 at a concrete three-byte payload. -/
theorem fragment_reassemble_roundtrip_witness :
    (∀ b ∈ [(7 : Nat), 200, 13], b < 256)
    ∧ ([(7 : Nat), 200, 13].length ≤ 10 * 1024 * 1024)
    ∧ (processAll ⟨[]⟩ (fragment "u1" [7, 200, 13])).1
        = List.replicate ((fragment "u1" [7, 200, 13]).length - 1) none
            ++ [some [7, 200, 13]] := by
  refine ⟨by decide, by decide, ?_⟩
  exact (fragment_reassemble_roundtrip [7, 200, 13] "u1" (by decide)
    (by decide)).1

end DistCloud
